import Mathlib

/-!
A shallow embedding of the Legato supervisor application layer
(`framework/c/src/supervisor/app.c`) and proofs about its lifecycle,
fault-limit and SMACK-rule logic.

Collaborator subsystems (config tree, launcher, sandbox, cgroup freezer,
user database, SMACK adapter, timers) are modelled as explicit oracle
inputs and event traces; the `App_t` / `ProcObj_t` structures and every
control path of `app.c` are translated directly from the C source.
-/

set_option maxRecDepth 4000

/-- `le_result_t` values used by `app.c`. -/
inductive LeResult
  | ok
  | fault
  | notFound
  | overflow
  | busy
deriving DecidableEq, Repr

/-- `app_State_t`: the application state (`APP_STATE_STOPPED` / `APP_STATE_RUNNING`). -/
inductive AppState
  | stopped
  | running
deriving DecidableEq, Repr

/-- `proc_State_t`: the launcher-side process state. -/
inductive ProcState
  | stopped
  | running
  | paused
deriving DecidableEq, Repr

/-- `proc_FaultAction_t`: classification of a process exit by the launcher. -/
inductive ProcFaultAction
  | noFault
  | ignore
  | restart
  | restartApp
  | stopApp
  | reboot
deriving DecidableEq, Repr

/-- `app_FaultAction_t`: the fault action returned to the Supervisor. -/
inductive AppFaultAction
  | ignore
  | restartApp
  | stopApp
  | reboot
deriving DecidableEq, Repr

/-- `wdog_action_WatchdogAction_t` values. -/
inductive WatchdogAction
  | notFound
  | error
  | handled
  | ignore
  | stop
  | restart
  | restartApp
  | stopApp
  | reboot
deriving DecidableEq, Repr

/-- `KillType_t`: soft (`SIGTERM`) or hard (`SIGKILL`) group kill. -/
inductive KillType
  | soft
  | hard
deriving DecidableEq, Repr

/-- The only stop handler `app.c` ever installs is `StartProc`
(`procObjectRef->stopHandler = StartProc;`). -/
inductive StopHandler
  | startProc
deriving DecidableEq, Repr

/-- The launcher-side process record visible to `app.c` through the `proc_`
accessors: PID (`proc_GetPID`), name (`proc_GetName`), last fault time
(`proc_GetFaultTime`), state (`proc_GetState`), the stopping mark set by
`proc_Stopping`, and the configured watchdog action (`proc_GetWatchdogAction`). -/
structure Proc where
  pid : Int
  name : String
  faultTime : Int
  state : ProcState
  stopping : Bool
  wdogAction : WatchdogAction
deriving DecidableEq, Repr

/-- `ProcObj_t`: a process reference plus the optional stop handler slot. -/
structure ProcObj where
  procRef : Proc
  stopHandler : Option StopHandler
deriving DecidableEq, Repr

/-- The per-app kill timer (`killTimer`): created lazily by `app_Stop`;
`running` / `expiry` model the one-shot `le_timer` state. -/
structure KTimer where
  running : Bool
  expiry : Nat
deriving DecidableEq, Repr

/-- `App_t`: the application object of `app.c`. -/
structure App where
  name : String
  cfgPathRoot : String
  sandboxed : Bool
  installPath : String
  sandboxPath : String
  uid : Nat
  gid : Nat
  supplementGids : List Nat
  numSupplementGids : Nat
  state : AppState
  procs : List ProcObj
  killTimer : Option KTimer
deriving DecidableEq, Repr

/-- `FAULT_LIMIT_INTERVAL_RESTART` (seconds). -/
def FAULT_LIMIT_INTERVAL_RESTART : Int := 10

/-- `FAULT_LIMIT_INTERVAL_RESTART_APP` (seconds). -/
def FAULT_LIMIT_INTERVAL_RESTART_APP : Int := 10

/-- `FAULT_LIMIT_INTERVAL_REBOOT` (seconds). -/
def FAULT_LIMIT_INTERVAL_REBOOT : Nat := 120

/-- `isRebootFaultRecFor`: the reboot fault record (file at
`REBOOT_FAULT_RECORD`, modelled as `Option String`) exists and its content
equals `"<app_name>/<proc_name>"`. -/
def isRebootFaultRecFor (record : Option String) (appName procName : String) : Bool :=
  match record with
  | none => false
  | some content => content = appName ++ "/" ++ procName

/-- `ReachedFaultLimit`: translated from `app.c`.  `nowFT` is
`proc_GetFaultTime(procRef)` (already updated by `proc_SigChildHandler`),
`prevFT` the fault time captured before that call. -/
def ReachedFaultLimit (record : Option String) (appName procName : String)
    (currFaultAction : ProcFaultAction) (nowFT prevFT : Int) : Bool :=
  match currFaultAction with
  | .restart =>
      nowFT != 0 && decide (nowFT - prevFT ≤ FAULT_LIMIT_INTERVAL_RESTART)
  | .restartApp =>
      nowFT != 0 && decide (nowFT - prevFT ≤ FAULT_LIMIT_INTERVAL_RESTART_APP)
  | .reboot => isRebootFaultRecFor record appName procName
  | _ => false

/-- Observable calls the application layer makes on its collaborator
subsystems, recorded as an event trace. -/
inductive Ev
  | sandboxSetup
  | resLimSet
  | smackSetRule (subject perm object : String)
  | smackRevoke (lbl : String)
  | sandboxRemove
  | resLimCleanup
  | procLaunch (procName : String) (res : LeResult)
  | appStopCalled
  | freeze (appName : String)
  | thaw (appName : String)
  | sendSig (appName : String) (sig : Int)
  | timerStart
  | timerStop
  | killHard (pid : Int)
  | writeRebootRec (content : String)
deriving DecidableEq, Repr

/-- `appSmack_AccessFlags_t`: the read/write/execute access-mode bits. -/
structure AccessFlags where
  r : Bool
  w : Bool
  x : Bool
deriving DecidableEq, Repr

/-- The SMACK label adapter (`appSmack_GetLabel` / `appSmack_GetAccessLabel`),
kept abstract: `app.c` only forwards the strings it returns. -/
structure SmackEnv where
  getLabel : String → String
  getAccessLabel : String → AccessFlags → String

/-- The permission strings of `SetDefaultSmackRules`
(`{"x", "w", "wx", "r", "rx", "rw", "rwx"}`). -/
def permissionStr : List String := ["x", "w", "wx", "r", "rx", "rw", "rwx"]

/-- The access mode computed by `SetDefaultSmackRules` with `strstr` lookups
on the permission string (a single-character needle occurs in the string iff
its character list contains it). -/
def modeOfPermStr (s : String) : AccessFlags :=
  { r := s.toList.contains 'r', w := s.toList.contains 'w',
    x := s.toList.contains 'x' }

/-- `SetDefaultSmackRules`: the seven self-permission rules plus the
framework pair, in program order.  Always succeeds (`return LE_OK`). -/
def SetDefaultSmackRules (env : SmackEnv) (appName appLabel : String) :
    LeResult × List Ev :=
  (.ok,
    permissionStr.map
      (fun p => Ev.smackSetRule appLabel p (env.getAccessLabel appName (modeOfPermStr p)))
    ++ [Ev.smackSetRule "framework" "w" appLabel,
        Ev.smackSetRule appLabel "rw" "framework"])

/-- `SetSmackRulesForBindings`: for every `bindings` child whose `app` field
is a non-empty string, set the two `rw` rules with the server's label.  A
child whose `app` field is empty (or unreadable, which the C code treats the
same way) is skipped.  Always succeeds (`return LE_OK`). -/
def SetSmackRulesForBindings (env : SmackEnv) (appLabel : String)
    (bindings : List String) : LeResult × List Ev :=
  (.ok,
    bindings.flatMap (fun serverName =>
      if serverName = "" then []
      else
        [Ev.smackSetRule appLabel "rw" (env.getLabel serverName),
         Ev.smackSetRule (env.getLabel serverName) "rw" appLabel]))

/-- `SetSmackRules`: default rules then binding rules. -/
def SetSmackRules (env : SmackEnv) (appName : String) (bindings : List String) :
    LeResult × List Ev :=
  let appLabel := env.getLabel appName
  ((SetDefaultSmackRules env appName appLabel).1,
   (SetDefaultSmackRules env appName appLabel).2
     ++ (SetSmackRulesForBindings env appLabel bindings).2)

/-- `CleanupApp`: revoke the subject rules for the app's label, remove the
sandbox if sandboxed, and clear the resource limits. -/
def CleanupApp (env : SmackEnv) (app : App) : List Ev :=
  [Ev.smackRevoke (env.getLabel app.name)]
    ++ (if app.sandboxed then [Ev.sandboxRemove] else [])
    ++ [Ev.resLimCleanup]

/-- Responses of the cgroup freezer used by `KillAppProcs`:
`cgrp_frz_Freeze` success, and the `cgrp_SendSig` outcome (`none` models
`LE_FAULT`, `some n` a successful signal delivered to `n` processes). -/
structure KillOracle where
  freezeOk : Bool
  sendSigRes : Option Nat

/-- `SIGTERM`. -/
def SIGTERM : Int := 15

/-- `SIGKILL`. -/
def SIGKILL : Int := 9

/-- The per-process pass of `KillAppProcs`: every process whose launcher
state is not `PROC_STATE_STOPPED` has its stop handler cleared and is marked
stopping (`proc_Stopping`). -/
def markProcsStopping (procs : List ProcObj) : List ProcObj :=
  procs.map (fun po =>
    if po.procRef.state ≠ ProcState.stopped then
      { procRef := { po.procRef with stopping := true }, stopHandler := none }
    else po)

/-- `KillAppProcs`: freeze the app's cgroup, clear stop handlers and mark
running processes stopping, broadcast the kill signal, and thaw.  Returns
`LE_NOT_FOUND` when the signal primitive reports a fault or zero processes. -/
def KillAppProcs (app : App) (killType : KillType) (o : KillOracle) :
    LeResult × App × List Ev :=
  let killSig := match killType with | .soft => SIGTERM | .hard => SIGKILL
  let app1 := { app with procs := markProcsStopping app.procs }
  let evs := [Ev.freeze app.name, Ev.sendSig app.name killSig]
  match o.sendSigRes with
  | none => (.notFound, app1, evs)
  | some 0 => (.notFound, app1, evs)
  | some (_ + 1) => (.ok, app1, evs ++ [Ev.thaw app.name])

/-- Inputs of `app_Stop` beyond the app itself: the freezer responses and
the current time (used only to model the 300 ms kill-timer deadline). -/
structure StopOracle where
  kill : KillOracle
  now : Nat

/-- `KillTimeout`: 300 ms. -/
def KillTimeout : Nat := 300

/-- Modelled from the spec: `le_timer_Start` semantics (the `le_timer`
implementation is not part of the supervised sources).  Starting a timer
that is already running leaves it untouched (`LE_BUSY`); starting a stopped
timer arms it `KillTimeout` from now (§5 "calling it while a soft-kill is
pending does not restart the 300 ms timer"). -/
def leTimerStart (t : KTimer) (now : Nat) : KTimer :=
  if t.running then t else { running := true, expiry := now + KillTimeout }

/-- `app_Stop`: no-op (with a warning) when already stopped; otherwise soft
kill, and either transition synchronously to Stopped (nothing to kill) or
arm the kill timer. -/
def app_Stop (env : SmackEnv) (app : App) (o : StopOracle) : App × List Ev :=
  if app.state = AppState.stopped then (app, [])
  else
    match KillAppProcs app .soft o.kill with
    | (res, app1, evs) =>
      if res = LeResult.notFound then
        ({ app1 with state := .stopped }, evs ++ CleanupApp env app1)
      else
        let t0 := match app1.killTimer with
          | none => { running := false, expiry := 0 }
          | some t => t
        ({ app1 with killTimer := some (leTimerStart t0 o.now) },
         evs ++ [Ev.timerStart])

/-- `HasRunningProc` = `!cgrp_IsEmpty(CGRP_SUBSYS_FREEZE, app.name)`;
supplied by the freezer oracle. -/
def HasRunningProc (isEmpty : Bool) : Bool :=
  !isEmpty

/-- Inputs of `app_Start` beyond the app itself: results of `sandbox_Setup`
and `resLim_SetAppLimits`, the launcher result for the `i`-th process launch
(`proc_StartInSandbox` / `proc_Start` inside `StartProc`), the `bindings`
config children (their `app` fields), and the oracle for the embedded
`app_Stop` call. -/
structure StartOracle where
  sandboxSetupOk : Bool
  resLimOk : Bool
  procStart : Nat → LeResult
  bindings : List String
  stop : StopOracle

/-- The process-launch loop of `app_Start`: launch each process in list
order via `StartProc`; the first failure short-circuits. -/
def startProcsLoop (f : Nat → LeResult) : Nat → List ProcObj → LeResult × List Ev
  | _, [] => (.ok, [])
  | i, po :: rest =>
    match f i with
    | .ok =>
      match startProcsLoop f (i + 1) rest with
      | (res, evs) => (res, Ev.procLaunch po.procRef.name .ok :: evs)
    | r => (.fault, [Ev.procLaunch po.procRef.name r])

/-- `app_Start`: reject if already running; set up the sandbox (if
sandboxed), apply resource limits, install SMACK rules, then launch every
process in order.  A launch failure invokes `app_Stop` and returns
`LE_FAULT`; on success the state becomes `APP_STATE_RUNNING`. -/
def app_Start (env : SmackEnv) (app : App) (o : StartOracle) :
    LeResult × App × List Ev :=
  if app.state = AppState.running then (.fault, app, [])
  else
    let evs0 : List Ev := if app.sandboxed then [Ev.sandboxSetup] else []
    if app.sandboxed ∧ ¬o.sandboxSetupOk then (.fault, app, evs0)
    else
      let evs1 := evs0 ++ [Ev.resLimSet]
      if ¬o.resLimOk then (.fault, app, evs1)
      else
        match SetSmackRules env app.name o.bindings with
        | (smackRes, smackEvs) =>
          if smackRes ≠ LeResult.ok then (.fault, app, evs1 ++ smackEvs)
          else
            let evs2 := evs1 ++ smackEvs
            match startProcsLoop o.procStart 0 app.procs with
            | (.ok, launchEvs) =>
                (.ok, { app with state := .running }, evs2 ++ launchEvs)
            | (_, launchEvs) =>
                match app_Stop env app o.stop with
                | (app1, stopEvs) =>
                  (.fault, app1,
                   evs2 ++ launchEvs ++ [Ev.appStopCalled] ++ stopEvs)

/-- `FindProcObjectRef`: scan the app's process list for the given PID,
returning the position and the process object. -/
def FindProcObjectRef : List ProcObj → Int → Option (Nat × ProcObj)
  | [], _ => none
  | po :: rest, pid =>
    if po.procRef.pid = pid then some (0, po)
    else (FindProcObjectRef rest pid).map (fun ip => (ip.1 + 1, ip.2))

/-- Inputs of `app_SigChildHandler` coming from collaborators: the exit
classification and updated fault time produced by `proc_SigChildHandler`,
the launcher result of a `StartProc` relaunch (used by the `Restart` path
and by an installed stop handler), whether `le_flock_Create` succeeds in
`WriteRebootFaultRec`, and the freezer's emptiness answer. -/
structure SigOracle where
  procFaultAction : ProcFaultAction
  newFaultTime : Int
  startProcResult : LeResult
  rebootWriteOk : Bool
  cgroupEmpty : Bool

/-- The dispatch part of `app_SigChildHandler` for a located process: the
fault-limit override and the per-action switch.  Returns the fault action,
the updated process object, the reboot-record state, and the trace. -/
def sigChildDispatch (appName : String) (record : Option String) (po : ProcObj)
    (o : SigOracle) : AppFaultAction × ProcObj × Option String × List Ev :=
  let prevFaultTime := po.procRef.faultTime
  let proc1 := { po.procRef with faultTime := o.newFaultTime }
  let po1 := { po with procRef := proc1 }
  if ReachedFaultLimit record appName proc1.name o.procFaultAction
      proc1.faultTime prevFaultTime then
    (.stopApp, po1, record, [])
  else
    match o.procFaultAction with
    | .noFault =>
      match po1.stopHandler with
      | none => (.ignore, po1, record, [])
      | some .startProc =>
        -- the handler is invoked (StartProc) but the slot is not cleared
        (if o.startProcResult ≠ LeResult.ok then .stopApp else .ignore,
         po1, record, [Ev.procLaunch proc1.name o.startProcResult])
    | .ignore => (.ignore, po1, record, [])
    | .restart =>
        (if o.startProcResult ≠ LeResult.ok then .stopApp else .ignore,
         po1, record, [Ev.procLaunch proc1.name o.startProcResult])
    | .restartApp => (.restartApp, po1, record, [])
    | .stopApp => (.stopApp, po1, record, [])
    | .reboot =>
        let content := appName ++ "/" ++ proc1.name
        ((.reboot : AppFaultAction), po1,
         (if o.rebootWriteOk then some content else record),
         [Ev.writeRebootRec content])

/-- `app_SigChildHandler`: locate the process by PID (a stray PID leaves the
fault action at `Ignore`), run the dispatch, then — always — check the
freezer and complete the transition to Stopped when the cgroup is empty
(stop the kill timer, clean up, set `APP_STATE_STOPPED`). -/
def app_SigChildHandler (env : SmackEnv) (app : App) (record : Option String)
    (procPid : Int) (procExitStatus : Int) (o : SigOracle) :
    AppFaultAction × App × Option String × List Ev :=
  let _ := procExitStatus
  let (fa, app1, record1, evs) :=
    match FindProcObjectRef app.procs procPid with
    | none => (AppFaultAction.ignore, app, record, ([] : List Ev))
    | some (i, po) =>
      match sigChildDispatch app.name record po o with
      | (fa, po1, record1, evs) =>
        (fa, { app with procs := app.procs.set i po1 }, record1, evs)
  if HasRunningProc o.cgroupEmpty then (fa, app1, record1, evs)
  else
    let (kt, ktEvs) :=
      match app1.killTimer with
      | none => (none, ([] : List Ev))
      | some t => (some { t with running := false }, [Ev.timerStop])
    (fa, { app1 with killTimer := kt, state := .stopped }, record1,
     evs ++ ktEvs ++ CleanupApp env app1)

/-- `StopProc`: mark the process stopping (`proc_Stopping`) and send it
`SIGKILL` (`kill_Hard`). -/
def StopProc (po : ProcObj) : ProcObj × List Ev :=
  ({ po with procRef := { po.procRef with stopping := true } },
   [Ev.killHard po.procRef.pid])

/-- Modelled from the spec: `wdog_action_EnumFromString` lives in
`watchdogAction.c`, which is not among the supervised sources.  Per
§4.1.4/§6 the app-level config string is mapped by FaultPolicy to a
`WatchdogAction`; a missing value (the config reader's `""` default) yields
`NotFound` so the handler synthesizes `Restart`, and an unknown string
yields `Error`. -/
def wdog_action_EnumFromString (s : String) : WatchdogAction :=
  if s = "ignore" then .ignore
  else if s = "restart" then .restart
  else if s = "restartApp" then .restartApp
  else if s = "stop" then .stop
  else if s = "stopApp" then .stopApp
  else if s = "reboot" then .reboot
  else if s = "" then .notFound
  else .error

/-- The app-level `watchdogAction` config read in
`app_WatchdogTimeoutHandler`: `some s` models `le_cfg_GetString` returning
`LE_OK` with value `s` (the empty string when the node is missing), `none`
models a failed read (overflow), after which the handler uses
`WATCHDOG_ACTION_ERROR`. -/
structure WdogOracle where
  appCfgRead : Option String

/-- The fallback of `app_WatchdogTimeoutHandler`: if the process-level
action is `NotFound` or `Error`, consult the app-level config string. -/
def resolveWatchdogAction (procAction : WatchdogAction) (o : WdogOracle) :
    WatchdogAction :=
  if procAction = WatchdogAction.notFound ∨ procAction = WatchdogAction.error then
    match o.appCfgRead with
    | some s => wdog_action_EnumFromString s
    | none => .error
  else procAction

/-- `app_WatchdogTimeoutHandler`: locate the process by PID (`LE_NOT_FOUND`
if absent, leaving the out-parameter unwritten), resolve the watchdog
action with the app-level fallback, and dispatch.  Returns the `le_result_t`,
the value written to `watchdogActionPtr` (`none` when unwritten), the
updated app, and the trace. -/
def app_WatchdogTimeoutHandler (app : App) (procPid : Int) (o : WdogOracle) :
    LeResult × Option WatchdogAction × App × List Ev :=
  match FindProcObjectRef app.procs procPid with
  | none => (.notFound, none, app, [])
  | some (i, po) =>
    let wa := resolveWatchdogAction po.procRef.wdogAction o
    match wa with
    | .notFound =>
      -- no policy anywhere: restart by default
      match StopProc { po with stopHandler := some .startProc } with
      | (po1, evs) =>
        (.ok, some .handled, { app with procs := app.procs.set i po1 }, evs)
    | .restart =>
      match StopProc { po with stopHandler := some .startProc } with
      | (po1, evs) =>
        (.ok, some .handled, { app with procs := app.procs.set i po1 }, evs)
    | .ignore => (.ok, some .handled, app, [])
    | .stop =>
      match StopProc po with
      | (po1, evs) =>
        (.ok, some .handled, { app with procs := app.procs.set i po1 }, evs)
    | .restartApp => (.ok, some .restartApp, app, [])
    | .stopApp => (.ok, some .stopApp, app, [])
    | .reboot => (.ok, some .reboot, app, [])
    | .error => (.ok, some .handled, app, [])
    | .handled => (.ok, some .handled, app, [])

/-- The children of the app's `groups` config node, in config order: each
entry is `some gid` when both the node-name read and `user_CreateGroup`
succeed, `none` when either fails. -/
def GroupsCfg : Type := List (Option Nat)

/-- Overwrite the first `gids.length` slots of the supplementary-group
array with the collected gids. -/
def overwriteGids (old : List Nat) (gids : List Nat) : List Nat :=
  gids ++ old.drop gids.length

/-- The `for (i = 0; i < LIMIT_MAX_NUM_SUPPLEMENTARY_GROUPS; i++)` loop of
`CreateSupplementaryGroups`, entered with a current group node.  Returns the
collected gids and the final loop index `i` (the C code then stores
`numSupplementGids = i + 1`), or `none` on `LE_FAULT`.  The loop breaks with
the current `i` when there is no next sibling; when a next sibling exists
but `i >= cap - 1` it fails ("Too many supplementary groups"). -/
def csgLoop (cap : Nat) : Nat → List (Option Nat) → Option (List Nat × Nat)
  | i, [] => some ([], i)
  | i, g :: rest =>
    if i < cap then
      match g with
      | none => none
      | some gid =>
        match rest with
        | [] => some ([gid], i)
        | _ :: _ =>
          if cap - 1 ≤ i then none
          else (csgLoop cap (i + 1) rest).map (fun gsi => (gid :: gsi.1, gsi.2))
    else some ([], i)

/-- `CreateSupplementaryGroups`, parametrized by the cap
`LIMIT_MAX_NUM_SUPPLEMENTARY_GROUPS` (defined in `limit.h`, not among the
supervised sources; the spec only requires it to be at least 8).  When the
`groups` node has no children the function returns `LE_OK` immediately and
`numSupplementGids` is left untouched. -/
def CreateSupplementaryGroups (cap : Nat) (groups : GroupsCfg) (app : App) :
    Option App :=
  match groups with
  | [] => some app
  | _ :: _ =>
    match csgLoop cap 0 groups with
    | none => none
    | some (gids, finalI) =>
      some { app with supplementGids := overwriteGids app.supplementGids gids,
                      numSupplementGids := finalI + 1 }

/-- Identity-resolution inputs of `CreateUserAndGroups`: whether
`user_AppNameToUserName` fits its buffer, the `user_GetIDs` result, and the
`groups` config children. -/
structure UserCfg where
  userNameOk : Bool
  userIds : Option (Nat × Nat)
  groups : GroupsCfg

/-- `CreateUserAndGroups`: for a sandboxed app resolve `(uid, gid)` from the
user database and create the supplementary groups; for an unsandboxed app
set `uid = gid = 0` and return (note: `numSupplementGids` is not written on
this path). -/
def CreateUserAndGroups (cap : Nat) (cfg : UserCfg) (app : App) : Option App :=
  if app.sandboxed then
    if ¬cfg.userNameOk then none
    else
      match cfg.userIds with
      | none => none
      | some (u, g) =>
        CreateSupplementaryGroups cap cfg.groups { app with uid := u, gid := g }
  else
    some { app with uid := 0, gid := 0 }

/-- `le_path_GetBasenamePtr(path, "/")`: the substring after the last
separator. -/
def basenameOf (path : String) : String :=
  ((path.splitOn "/").getLast? ).getD path

/-- `APPS_INSTALL_DIR`. -/
def APPS_INSTALL_DIR : String := "/opt/legato/apps"

/-- Construction inputs of `app_Create`: the config path, the `sandboxed`
config value (`none` when the node is absent; `le_cfg_GetBool` then yields
the default `true`), the identity-resolution inputs, the `sandbox_GetPath`
result, and the `procs` children (each `some p` a successfully created
process, `none` a failed `proc_Create`). -/
structure CreateCfg where
  cfgPath : String
  sandboxedCfg : Option Bool
  user : UserCfg
  sandboxPathRes : Option String
  procsCfg : List (Option Proc)

/-- Build the process-object list of `app_Create`: one `ProcObj_t` per
`procs` child, `stopHandler` initialized to `NULL`, config order preserved;
any failed `proc_Create` abandons construction. -/
def createProcObjs : List (Option Proc) → Option (List ProcObj)
  | [] => some []
  | none :: _ => none
  | some p :: rest =>
    (createProcObjs rest).map (fun tl => { procRef := p, stopHandler := none } :: tl)

/-- The field-initialization prologue of `app_Create`: copy the config
path, derive the name as its basename, start with an empty process list, a
Stopped state, no kill timer, and the `sandboxed` config value (default
true).  All other fields keep the allocated block's prior contents. -/
def appCreateInit (junk : App) (cfg : CreateCfg) : App :=
  { junk with
    cfgPathRoot := cfg.cfgPath,
    name := basenameOf cfg.cfgPath,
    procs := [],
    state := AppState.stopped,
    killTimer := none,
    sandboxed := cfg.sandboxedCfg.getD true }

/-- The sandbox-path step of `app_Create`: resolve via `sandbox_GetPath`
for sandboxed apps (failing construction on overflow), empty otherwise. -/
def setSandboxPath (cfg : CreateCfg) (a : App) : Option App :=
  if a.sandboxed then
    match cfg.sandboxPathRes with
    | none => none
    | some p => some { a with sandboxPath := p }
  else some { a with sandboxPath := "" }

/-- `app_Create`.  `junk` is the block handed out by `le_mem_ForceAlloc`,
whose prior contents are unspecified (pool blocks are recycled); every field
the C code assigns is overwritten, the rest keep their `junk` values. -/
def app_Create (cap : Nat) (junk : App) (cfg : CreateCfg) : Option App :=
  (CreateUserAndGroups cap cfg.user (appCreateInit junk cfg)).bind fun a1 =>
    (setSandboxPath cfg
        { a1 with installPath := APPS_INSTALL_DIR ++ "/" ++ a1.name }).bind fun a3 =>
      (createProcObjs cfg.procsCfg).map fun pos => { a3 with procs := pos }

/-- State of the reboot-fault ledger subsystem: the current time in seconds
since supervisor init, the armed expiry time of the reboot-fault grace timer
(`none` once deleted), and the content of `REBOOT_FAULT_RECORD` (`none` when
the file does not exist). -/
structure LedgerSys where
  now : Nat
  timer : Option Nat
  record : Option String
deriving DecidableEq, Repr

/-- `RebootFaultTimerHandler`: unconditionally unlink the reboot fault
record (a missing file is tolerated) and delete the timer. -/
def RebootFaultTimerHandler (s : LedgerSys) : LedgerSys :=
  { s with record := none, timer := none }

/-- The ledger part of `app_Init`: at supervisor init (time 0) the
reboot-fault timer is created with interval `FAULT_LIMIT_INTERVAL_REBOOT`
(120 s) and started; the record file is initially absent on a clean boot. -/
def appInitLedger : LedgerSys :=
  { now := 0, timer := some FAULT_LIMIT_INTERVAL_REBOOT, record := none }

/-- Events of the ledger subsystem: one second of time passing, the grace
timer expiring, or `WriteRebootFaultRec` storing `"<app>/<proc>"`. -/
inductive LedgerEv
  | tick
  | expire
  | write (content : String)
deriving DecidableEq, Repr

/-- Modelled from the spec: one-shot `le_timer` event-loop semantics for the
grace timer (the `le_timer` implementation is not among the supervised
sources).  Time cannot advance past a due expiry (the event loop runs the
handler, §4.2 "one-shot, 120 s, started at supervisor init; on expiry
unlinks the file and stops"); `expire` runs `RebootFaultTimerHandler`
exactly when the armed timer is due; `write` runs `WriteRebootFaultRec`. -/
def ledgerStep (s : LedgerSys) : LedgerEv → Option LedgerSys
  | .tick =>
      if s.timer = some s.now then none else some { s with now := s.now + 1 }
  | .expire =>
      if s.timer = some s.now then some (RebootFaultTimerHandler s) else none
  | .write content => some { s with record := some content }

/-- Run a sequence of ledger events from a state. -/
def ledgerRun (s : LedgerSys) : List LedgerEv → Option LedgerSys
  | [] => some s
  | e :: es =>
    match ledgerStep s e with
    | none => none
    | some s1 => ledgerRun s1 es

/-- Run a sequence of ledger events from supervisor init. -/
def runLedger (evs : List LedgerEv) : Option LedgerSys :=
  ledgerRun appInitLedger evs

/-- A concrete SMACK adapter used by witnesses. -/
def sampleEnv : SmackEnv :=
  { getLabel := fun s => "app." ++ s,
    getAccessLabel := fun s f =>
      "app." ++ s ++ "." ++ (if f.r then "r" else "")
        ++ (if f.w then "w" else "") ++ (if f.x then "x" else "") }

/-- A concrete process used by witnesses. -/
def sampleProc : Proc :=
  { pid := 5, name := "p", faultTime := 100, state := .running,
    stopping := false, wdogAction := .restart }

/-- A concrete process object used by witnesses. -/
def sampleProcObj : ProcObj :=
  { procRef := sampleProc, stopHandler := none }

/-- A concrete running application used by witnesses. -/
def sampleApp : App :=
  { name := "a", cfgPathRoot := "/apps/a", sandboxed := true,
    installPath := "/opt/legato/apps/a", sandboxPath := "/tmp/legato/sandboxes/a",
    uid := 1000, gid := 1000, supplementGids := [], numSupplementGids := 0,
    state := .running, procs := [sampleProcObj], killTimer := none }

/-- C1: for a process-exit event handled by `app_SigChildHandler`, the fault
limit is reached for `Restart`/`RestartApp` iff the new fault time is
non-zero and at most 10 s after the previous one; for `Reboot` iff the
reboot-fault record exists and equals `"<app_name>/<proc_name>"`; never for
the other classifications; and whenever the limit is reached the handler
returns `StopApp` instead of the configured action. -/
theorem c1_fault_limit_theorem (record : Option String) (appName procName : String)
    (a : ProcFaultAction) (nowFT prevFT : Int)
    (env : SmackEnv) (app : App) (pid status : Int) (o : SigOracle)
    (i : Nat) (po : ProcObj)
    (hfind : FindProcObjectRef app.procs pid = some (i, po)) :
    ((a = .restart ∨ a = .restartApp) →
      (ReachedFaultLimit record appName procName a nowFT prevFT = true ↔
        (nowFT ≠ 0 ∧ nowFT - prevFT ≤ 10)))
    ∧ (ReachedFaultLimit record appName procName .reboot nowFT prevFT = true ↔
        record = some (appName ++ "/" ++ procName))
    ∧ ((a = .noFault ∨ a = .ignore ∨ a = .stopApp) →
        ReachedFaultLimit record appName procName a nowFT prevFT = false)
    ∧ (ReachedFaultLimit record app.name po.procRef.name o.procFaultAction
          o.newFaultTime po.procRef.faultTime = true →
        (app_SigChildHandler env app record pid status o).1 = .stopApp) := by
  refine ⟨?_, ?_, ?_, ?_⟩
  · rintro (rfl | rfl) <;>
      simp [ReachedFaultLimit, FAULT_LIMIT_INTERVAL_RESTART,
        FAULT_LIMIT_INTERVAL_RESTART_APP]
  · cases record <;>
      simp [ReachedFaultLimit, isRebootFaultRecFor]
  · rintro (rfl | rfl | rfl) <;> rfl
  · intro hlim
    by_cases hrun : HasRunningProc o.cgroupEmpty = true <;>
      simp [app_SigChildHandler, sigChildDispatch, hfind, hlim, hrun]

/-- Claim C2 as stated: a reboot-fault record created at any time is
removed within 120 seconds of being written (no reboot happens in these
traces; later writes are excluded so only the timer could remove it). -/
def ClaimC2AsStated : Prop :=
  ∀ (pre : List LedgerEv) (content : String) (post : List LedgerEv)
    (s1 s2 : LedgerSys),
    runLedger pre = some s1 →
    runLedger (pre ++ LedgerEv.write content :: post) = some s2 →
    (∀ t, LedgerEv.write t ∉ post) →
    s1.now + 120 ≤ s2.now →
    s2.record = none

/-- `ledgerRun` splits over list append. -/
theorem ledgerRun_append (l1 l2 : List LedgerEv) (s : LedgerSys) :
    ledgerRun s (l1 ++ l2) =
      match ledgerRun s l1 with
      | none => none
      | some s1 => ledgerRun s1 l2 := by
  induction l1 generalizing s with
  | nil => rfl
  | cons e es ih =>
    simp only [List.cons_append, ledgerRun]
    cases ledgerStep s e with
    | none => rfl
    | some s1 => exact ih s1

/-- Timer invariant of the ledger system: the grace timer is either already
deleted or still armed at the init-time expiry of 120 s, not yet passed. -/
def LedgerInv (s : LedgerSys) : Prop :=
  s.timer = none ∨ (s.timer = some 120 ∧ s.now ≤ 120)

/-- `LedgerInv` is preserved by every ledger event. -/
theorem ledgerStep_inv {s s' : LedgerSys} {e : LedgerEv}
    (h : LedgerInv s) (hstep : ledgerStep s e = some s') : LedgerInv s' := by
  cases e with
  | tick =>
    simp only [ledgerStep] at hstep
    split at hstep
    · exact absurd hstep (by simp)
    · rcases h with h | ⟨h1, h2⟩
      · cases hstep; left; exact h
      · cases hstep
        right
        refine ⟨h1, ?_⟩
        show s.now + 1 ≤ 120
        rename_i hne
        have : s.now ≠ 120 := fun he => hne (by rw [h1, he])
        omega
  | expire =>
    simp only [ledgerStep] at hstep
    split at hstep
    · cases hstep; left; rfl
    · exact absurd hstep (by simp)
  | write content =>
    cases hstep
    rcases h with h | h
    · left; exact h
    · right; exact h

/-- `LedgerInv` is preserved by every ledger run. -/
theorem ledgerRun_inv {evs : List LedgerEv} {s s' : LedgerSys}
    (h : LedgerInv s) (hrun : ledgerRun s evs = some s') : LedgerInv s' := by
  induction evs generalizing s with
  | nil => cases hrun; exact h
  | cons e es ih =>
    simp only [ledgerRun] at hrun
    cases hstep : ledgerStep s e with
    | none => rw [hstep] at hrun; cases hrun
    | some s1 =>
      rw [hstep] at hrun
      exact ih (ledgerStep_inv h hstep) hrun

/-- Clearing invariant for write-free runs: either the grace timer is still
armed (and will clear the record at 120 s), or the record is gone. -/
def LedgerW (s : LedgerSys) : Prop :=
  (s.timer = some 120 ∧ s.now ≤ 120) ∨ s.record = none

/-- `LedgerW` is preserved by write-free runs. -/
theorem ledgerRun_w {evs : List LedgerEv} {s s' : LedgerSys}
    (hw : LedgerW s) (hnw : ∀ t, LedgerEv.write t ∉ evs)
    (hrun : ledgerRun s evs = some s') : LedgerW s' := by
  induction evs generalizing s with
  | nil => cases hrun; exact hw
  | cons e es ih =>
    simp only [ledgerRun] at hrun
    cases hstep : ledgerStep s e with
    | none => rw [hstep] at hrun; cases hrun
    | some s1 =>
      rw [hstep] at hrun
      have hnw' : ∀ t, LedgerEv.write t ∉ es := by
        intro t ht
        exact hnw t (List.mem_cons_of_mem _ ht)
      refine ih ?_ hnw' hrun
      cases e with
      | tick =>
        simp only [ledgerStep] at hstep
        split at hstep
        · exact absurd hstep (by simp)
        · cases hstep
          rcases hw with ⟨h1, h2⟩ | h
          · left
            refine ⟨h1, ?_⟩
            show s.now + 1 ≤ 120
            rename_i hne
            have : s.now ≠ 120 := fun he => hne (by rw [h1, he])
            omega
          · right; exact h
      | expire =>
        simp only [ledgerStep] at hstep
        split at hstep
        · cases hstep; right; rfl
        · exact absurd hstep (by simp)
      | write content =>
        exact ((hnw content) (List.mem_cons_self _ _)).elim

/-- Counterexample to C2 as stated: the grace timer is started once, at
supervisor init, and its handler deletes the timer; a record written after
the timer expired (here at 121 s) is still present 120 s later. -/
theorem c2_counterexample : ¬ ClaimC2AsStated := by
  intro h
  have := h (List.replicate 120 .tick ++ [.expire, .tick]) "a/p"
      (List.replicate 120 .tick)
      ⟨121, none, none⟩ ⟨241, none, some "a/p"⟩
      (by decide) (by decide)
      (fun t ht => LedgerEv.noConfusion (List.eq_of_mem_replicate ht))
      (by decide)
  exact absurd this (by decide)

/-- C2 (amended): the expiry handler unconditionally deletes the record,
and any record written while the grace timer is still armed is removed by
the expiry, which happens exactly 120 seconds after supervisor init — hence
within 120 s of the record's creation.  (A record written after the timer
has expired is not removed, which is what the counterexample exhibits.) -/
theorem c2_amended_theorem (pre post : List LedgerEv) (content : String)
    (s1 s2 : LedgerSys)
    (h1 : runLedger pre = some s1)
    (harm : s1.timer.isSome)
    (h2 : runLedger (pre ++ LedgerEv.write content :: post) = some s2)
    (hnw : ∀ t, LedgerEv.write t ∉ post)
    (hl : 121 ≤ s2.now) :
    s1.timer = some FAULT_LIMIT_INTERVAL_REBOOT ∧ s1.now ≤ 120 ∧
      s2.record = none ∧
      ∀ s, (RebootFaultTimerHandler s).record = none := by
  have hinv0 : LedgerInv appInitLedger := by
    right; exact ⟨rfl, by simp [appInitLedger]⟩
  have hinv1 : LedgerInv s1 := ledgerRun_inv hinv0 h1
  have htimer : s1.timer = some 120 ∧ s1.now ≤ 120 := by
    rcases hinv1 with h | h
    · rw [h] at harm; cases harm
    · exact h
  refine ⟨htimer.1, htimer.2, ?_, fun s => rfl⟩
  have hsplit := ledgerRun_append pre (LedgerEv.write content :: post) appInitLedger
  unfold runLedger at h1 h2
  rw [h2, h1] at hsplit
  simp only [ledgerRun, ledgerStep] at hsplit
  have hw1 : LedgerW { s1 with record := some content } := by
    left; exact ⟨htimer.1, htimer.2⟩
  have hw2 : LedgerW s2 := ledgerRun_w hw1 hnw hsplit.symm
  rcases hw2 with ⟨_, h⟩ | h
  · omega
  · exact h

/-- Witness for C2 (amended) at a concrete input: a record written at init
time is gone once 121 s have passed. -/
theorem c2_amended_witness :
    runLedger ([] ++ LedgerEv.write "a/p" ::
        (List.replicate 120 LedgerEv.tick ++ [LedgerEv.expire, LedgerEv.tick]))
        = some ⟨121, none, none⟩ ∧
      (⟨121, none, none⟩ : LedgerSys).record = none :=
  ⟨by decide,
   (c2_amended_theorem [] (List.replicate 120 LedgerEv.tick ++ [LedgerEv.expire, LedgerEv.tick])
      "a/p" appInitLedger ⟨121, none, none⟩ (by decide) (by decide) (by decide)
      (by
        intro t ht
        rcases List.mem_append.mp ht with h | h
        · exact LedgerEv.noConfusion (List.eq_of_mem_replicate h)
        · simp at h)
      (by decide)).2.2.1⟩

/-- A concrete stopped application used by C3/C9 witnesses. -/
def sampleStoppedApp : App :=
  { sampleApp with state := .stopped }

/-- A concrete stop oracle used by witnesses. -/
def sampleStopOracle : StopOracle :=
  { kill := { freezeOk := true, sendSigRes := some 0 }, now := 0 }

/-- A start oracle whose sandbox setup fails. -/
def startOracleFailSandbox : StartOracle :=
  { sandboxSetupOk := false, resLimOk := true, procStart := fun _ => .ok,
    bindings := [], stop := sampleStopOracle }

/-- Claim C3 as stated: whenever `app_Start` fails for one of the failing
steps (the app not being already running), it invokes `stop()` before
returning and does not set the state to Running; on success it sets the
state to Running. -/
def ClaimC3AsStated : Prop :=
  ∀ (env : SmackEnv) (app : App) (o : StartOracle),
    app.state = AppState.stopped →
    (((app_Start env app o).1 = .fault →
        Ev.appStopCalled ∈ (app_Start env app o).2.2 ∧
        (app_Start env app o).2.1.state ≠ .running) ∧
     ((app_Start env app o).1 = .ok →
        (app_Start env app o).2.1.state = .running))

/-- Counterexample to C3 as stated: a sandbox-setup failure makes
`app_Start` return `LE_FAULT` without calling `app_Stop`. -/
theorem c3_counterexample : ¬ ClaimC3AsStated := by
  intro h
  have h2 := (h sampleEnv sampleStoppedApp startOracleFailSandbox rfl).1 (by decide)
  exact absurd h2.1 (by decide)

/-- `Ev.appStopCalled` never occurs among the SMACK-rule events. -/
theorem appStop_not_in_smackEvs (env : SmackEnv) (appName : String)
    (bindings : List String) :
    Ev.appStopCalled ∉ (SetSmackRules env appName bindings).2 := by
  simp only [SetSmackRules, SetDefaultSmackRules, SetSmackRulesForBindings,
    permissionStr, List.mem_append, List.mem_flatMap]
  rintro (h | h)
  · simp at h
  · obtain ⟨b, _, hmem⟩ := h
    by_cases hb : b = "" <;> simp [hb] at hmem

/-- C3 (amended): `app_Start` on a stopped app leaves the state Stopped on
every failure and sets it Running exactly on success; it invokes `stop()`
on a per-process launch failure, but a sandbox-setup or resource-limit
failure returns `LE_FAULT` without invoking `stop()` (the SMACK step cannot
fail). -/
theorem c3_amended_theorem (env : SmackEnv) (app : App) (o : StartOracle)
    (hstop : app.state = AppState.stopped) :
    ((app_Start env app o).1 = .fault → (app_Start env app o).2.1.state = .stopped)
    ∧ ((app_Start env app o).1 = .ok → (app_Start env app o).2.1.state = .running)
    ∧ (app.sandboxed = true → o.sandboxSetupOk = false →
        (app_Start env app o).1 = .fault ∧
        Ev.appStopCalled ∉ (app_Start env app o).2.2)
    ∧ ((app.sandboxed = true → o.sandboxSetupOk = true) → o.resLimOk = false →
        (app_Start env app o).1 = .fault ∧
        Ev.appStopCalled ∉ (app_Start env app o).2.2)
    ∧ ((app.sandboxed = true → o.sandboxSetupOk = true) → o.resLimOk = true →
        (startProcsLoop o.procStart 0 app.procs).1 ≠ .ok →
        (app_Start env app o).1 = .fault ∧
        Ev.appStopCalled ∈ (app_Start env app o).2.2) := by
  have hsmack : Ev.appStopCalled ∉ (SetSmackRules env app.name o.bindings).2 :=
    appStop_not_in_smackEvs env app.name o.bindings
  have hnr : ¬ app.state = AppState.running := by rw [hstop]; intro h; cases h
  by_cases hsb : app.sandboxed = true
  · by_cases hso : o.sandboxSetupOk = true
    · by_cases hrl : o.resLimOk = true
      · cases hloop : startProcsLoop o.procStart 0 app.procs with
        | mk res evs =>
          cases res <;>
            simp_all [app_Start, app_Stop, hstop, SetSmackRules,
              SetDefaultSmackRules, SetSmackRulesForBindings]
      · cases hloop : startProcsLoop o.procStart 0 app.procs with
        | mk res evs =>
          simp_all [app_Start, hstop]
    · simp_all [app_Start, hstop]
  · by_cases hrl : o.resLimOk = true
    · cases hloop : startProcsLoop o.procStart 0 app.procs with
      | mk res evs =>
        cases res <;>
          simp_all [app_Start, app_Stop, hstop, SetSmackRules,
            SetDefaultSmackRules, SetSmackRulesForBindings]
    · cases hloop : startProcsLoop o.procStart 0 app.procs with
      | mk res evs =>
        simp_all [app_Start, hstop]

/-- Witness for C3 (amended) at a concrete input: the sandbox-setup failure
case returns `LE_FAULT` without invoking `stop()`. -/
theorem c3_amended_witness :
    (app_Start sampleEnv sampleStoppedApp startOracleFailSandbox).1 = .fault ∧
      Ev.appStopCalled ∉
        (app_Start sampleEnv sampleStoppedApp startOracleFailSandbox).2.2 :=
  (c3_amended_theorem sampleEnv sampleStoppedApp startOracleFailSandbox
      (by decide)).2.2.1 (by decide) (by decide)

/-- `FindProcObjectRef` returns a valid position holding the returned
process object. -/
theorem FindProcObjectRef_getElem {procs : List ProcObj} {pid : Int}
    {i : Nat} {po : ProcObj}
    (h : FindProcObjectRef procs pid = some (i, po)) :
    procs[i]? = some po := by
  induction procs generalizing i with
  | nil => cases h
  | cons p rest ih =>
    simp only [FindProcObjectRef] at h
    split at h
    · cases h; simp
    · cases hrec : FindProcObjectRef rest pid with
      | none => rw [hrec] at h; cases h
      | some ip =>
        rw [hrec] at h
        simp only [Option.map_some'] at h
        cases h
        simpa using ih hrec

/-- Every branch of `sigChildDispatch` leaves the stop-handler slot of the
process object untouched (in particular the NoFault path does not clear it
after invoking it). -/
theorem sigChildDispatch_stopHandler (appName : String) (record : Option String)
    (po : ProcObj) (o : SigOracle) :
    (sigChildDispatch appName record po o).2.1.stopHandler = po.stopHandler := by
  unfold sigChildDispatch
  cases hsh : po.stopHandler with
  | none =>
    cases ha : o.procFaultAction <;> simp [ha, hsh] <;> try (split <;> rfl)
  | some sh =>
    cases sh
    cases ha : o.procFaultAction <;> simp [ha, hsh] <;> try (split <;> rfl)

/-- The process list returned by `app_SigChildHandler` is the input list
with at most the located position replaced by an object with the same
stop handler. -/
theorem app_SigChildHandler_procs (env : SmackEnv) (app : App)
    (record : Option String) (procPid procExitStatus : Int) (o : SigOracle) :
    ∀ j : Nat,
      ((app_SigChildHandler env app record procPid procExitStatus o).2.1.procs[j]?).map
          ProcObj.stopHandler
        = (app.procs[j]?).map ProcObj.stopHandler := by
  intro j
  unfold app_SigChildHandler
  cases hfind : FindProcObjectRef app.procs procPid with
  | none =>
    by_cases hrun : HasRunningProc o.cgroupEmpty = true <;> simp [hrun]
  | some ip =>
    obtain ⟨i, po⟩ := ip
    have hget := FindProcObjectRef_getElem hfind
    have hsh := sigChildDispatch_stopHandler app.name record po o
    by_cases hij : i = j
    · subst hij
      by_cases hrun : HasRunningProc o.cgroupEmpty = true <;>
        cases hd : sigChildDispatch app.name record po o with
        | mk fa rest =>
          obtain ⟨po1, rest2⟩ := rest
          rw [hd] at hsh
          simp only at hsh
          have hlen : i < app.procs.length := by
            by_contra hle
            rw [List.getElem?_eq_none (by omega)] at hget
            cases hget
          simp [hrun, hd, List.getElem?_set_eq hlen, hsh, hget]
    · by_cases hrun : HasRunningProc o.cgroupEmpty = true <;>
        cases hd : sigChildDispatch app.name record po o with
        | mk fa rest =>
          obtain ⟨po1, rest2⟩ := rest
          simp [hrun, hd, List.getElem?_set_ne hij]

/-- The handler slots of the process objects built by `app_Create` are all
`NULL`. -/
theorem createProcObjs_handlers {cfg : List (Option Proc)} {pos : List ProcObj}
    (h : createProcObjs cfg = some pos) :
    ∀ po ∈ pos, po.stopHandler = none := by
  induction cfg generalizing pos with
  | nil => cases h; intro po hpo; cases hpo
  | cons c rest ih =>
    cases c with
    | none => cases h
    | some p =>
      simp only [createProcObjs] at h
      cases hrec : createProcObjs rest with
      | none => rw [hrec] at h; cases h
      | some tl =>
        rw [hrec] at h
        simp only [Option.map_some'] at h
        cases h
        intro po hpo
        rcases List.mem_cons.mp hpo with hpo | hpo
        · rw [hpo]
        · exact ih hrec po hpo

/-- Claim C4's "cleared again after it has been invoked" conjunct, as
stated: after the NoFault path of `app_SigChildHandler` has invoked the
installed stop handler, the slot is null again. -/
def ClaimC4ClearedAfterInvocation : Prop :=
  ∀ (env : SmackEnv) (app : App) (record : Option String) (pid status : Int)
    (o : SigOracle) (i : Nat) (po : ProcObj),
    FindProcObjectRef app.procs pid = some (i, po) →
    o.procFaultAction = .noFault →
    po.stopHandler = some .startProc →
    ((app_SigChildHandler env app record pid status o).2.1.procs[i]?).map
        ProcObj.stopHandler = some none

/-- A process object with an installed watchdog stop handler. -/
def procObjWithHandler : ProcObj :=
  { procRef := sampleProc, stopHandler := some .startProc }

/-- A running app whose only process has an installed stop handler. -/
def appWithHandler : App :=
  { sampleApp with procs := [procObjWithHandler] }

/-- Counterexample to C4 as stated: after the NoFault path invokes the stop
handler (successfully relaunching the process), the slot still holds
`StartProc` — the code never clears it. -/
theorem c4_counterexample : ¬ ClaimC4ClearedAfterInvocation := by
  intro h
  have := h sampleEnv appWithHandler none 5 0
      { procFaultAction := .noFault, newFaultTime := 100, startProcResult := .ok,
        rebootWriteOk := true, cgroupEmpty := false } 0 procObjWithHandler
      (by decide) rfl rfl
  exact absurd this (by decide)

/-- C4 (amended): the stop handler is non-null only after the watchdog path
set it and is cleared on every supervisor-initiated kill — `KillAppProcs`
(soft or hard) clears it for every process the launcher reports
not-Stopped — but it is NOT cleared after the NoFault path has invoked it:
`app_SigChildHandler` leaves every stop-handler slot exactly as it found
it, `app_Create` initializes every slot to null, and
`app_WatchdogTimeoutHandler` installs `StartProc` exactly when the resolved
action is `Restart` or the synthesized default (`NotFound`). -/
theorem c4_amended_theorem :
    (∀ (app : App) (kt : KillType) (o : KillOracle) (i : Nat) (po : ProcObj),
      app.procs[i]? = some po →
      ((po.procRef.state ≠ ProcState.stopped →
        (KillAppProcs app kt o).2.1.procs[i]? =
          some { procRef := { po.procRef with stopping := true },
                 stopHandler := none })
       ∧ (po.procRef.state = ProcState.stopped →
        (KillAppProcs app kt o).2.1.procs[i]? = some po)))
    ∧ (∀ (env : SmackEnv) (app : App) (record : Option String)
        (pid status : Int) (o : SigOracle) (j : Nat),
        ((app_SigChildHandler env app record pid status o).2.1.procs[j]?).map
            ProcObj.stopHandler = (app.procs[j]?).map ProcObj.stopHandler)
    ∧ (∀ (cap : Nat) (junk : App) (cfg : CreateCfg) (a : App),
        app_Create cap junk cfg = some a →
        ∀ po ∈ a.procs, po.stopHandler = none)
    ∧ (∀ (app : App) (pid : Int) (o : WdogOracle) (i : Nat) (po : ProcObj),
        FindProcObjectRef app.procs pid = some (i, po) →
        (((resolveWatchdogAction po.procRef.wdogAction o = .notFound ∨
           resolveWatchdogAction po.procRef.wdogAction o = .restart) →
          ((app_WatchdogTimeoutHandler app pid o).2.2.1.procs[i]?).map
              ProcObj.stopHandler = some (some .startProc))
         ∧ ((resolveWatchdogAction po.procRef.wdogAction o ≠ .notFound ∧
             resolveWatchdogAction po.procRef.wdogAction o ≠ .restart) →
          ∀ j : Nat,
            ((app_WatchdogTimeoutHandler app pid o).2.2.1.procs[j]?).map
                ProcObj.stopHandler = (app.procs[j]?).map ProcObj.stopHandler))) := by
  refine ⟨?_, app_SigChildHandler_procs, ?_, ?_⟩
  · intro app kt o i po hget
    have hprocs : (KillAppProcs app kt o).2.1.procs = markProcsStopping app.procs := by
      unfold KillAppProcs
      rcases o.sendSigRes with _ | n
      · rfl
      · cases n <;> rfl
    constructor <;> intro hst <;>
      rw [hprocs] <;>
      simp [markProcsStopping, List.getElem?_map, hget, hst]
  · intro cap junk cfg a h
    simp only [app_Create, Option.bind_eq_some, Option.map_eq_some'] at h
    obtain ⟨a1, h1, a3, h3, pos, hpos, rfl⟩ := h
    simpa using createProcObjs_handlers hpos
  · intro app pid o i po hfind
    have hget := FindProcObjectRef_getElem hfind
    have hlen : i < app.procs.length := by
      by_contra hle
      rw [List.getElem?_eq_none (by omega)] at hget
      cases hget
    constructor
    · rintro (hres | hres) <;>
        simp [app_WatchdogTimeoutHandler, hfind, hres, StopProc,
          List.getElem?_set_eq hlen]
    · rintro ⟨h1, h2⟩ j
      cases hres : resolveWatchdogAction po.procRef.wdogAction o <;>
        first
        | exact absurd hres h1
        | exact absurd hres h2
        | (by_cases hij : i = j
           · subst hij
             simp [app_WatchdogTimeoutHandler, hfind, hres, StopProc,
               List.getElem?_set_eq hlen, hget]
           · simp [app_WatchdogTimeoutHandler, hfind, hres, StopProc,
               List.getElem?_set_ne hij])

/-- Witness for C4 (amended) at a concrete input: a soft kill clears the
installed stop handler of the running process. -/
theorem c4_amended_witness :
    (KillAppProcs appWithHandler .soft
        { freezeOk := true, sendSigRes := some 1 }).2.1.procs[0]? =
      some { procRef := { sampleProc with stopping := true },
             stopHandler := none } :=
  ((c4_amended_theorem.1 appWithHandler .soft
      { freezeOk := true, sendSigRes := some 1 } 0 procObjWithHandler
      (by decide)).1 (by decide))

/-- A recycled pool block whose prior occupant left `numSupplementGids = 5`
(`le_mem_ForceAlloc` does not clear recycled blocks). -/
def junkApp : App :=
  { name := "junk", cfgPathRoot := "junk", sandboxed := true,
    installPath := "junk", sandboxPath := "junk", uid := 42, gid := 42,
    supplementGids := [7, 7, 7, 7, 7], numSupplementGids := 5,
    state := .stopped, procs := [], killTimer := none }

/-- Config of an unsandboxed app with no groups and no processes. -/
def unsandboxedCfg : CreateCfg :=
  { cfgPath := "/apps/u", sandboxedCfg := some false,
    user := { userNameOk := true, userIds := some (1000, 1000), groups := [] },
    sandboxPathRes := none, procsCfg := [] }

/-- Config of a sandboxed app whose `groups` node has no children. -/
def sandboxedNoGroupsCfg : CreateCfg :=
  { cfgPath := "/apps/s", sandboxedCfg := none,
    user := { userNameOk := true, userIds := some (1001, 1001), groups := [] },
    sandboxPathRes := some "/tmp/legato/sandboxes/s", procsCfg := [] }

/-- C5 (code bug): constructing an unsandboxed app does set
`uid = gid = 0`, but neither the unsandboxed path of `CreateUserAndGroups`
nor the empty-`groups` early return of `CreateSupplementaryGroups` ever
writes `numSupplementGids`, so the count keeps the allocated block's stale
value (5 here) instead of the 0 the claim requires. -/
theorem c5_code_bug_theorem :
    ((app_Create 8 junkApp unsandboxedCfg).map App.uid = some 0) ∧
    ((app_Create 8 junkApp unsandboxedCfg).map App.gid = some 0) ∧
    ((app_Create 8 junkApp unsandboxedCfg).map App.numSupplementGids = some 5) ∧
    ((app_Create 8 junkApp sandboxedNoGroupsCfg).map App.numSupplementGids
      = some 5) := by
  refine ⟨?_, ?_, ?_, ?_⟩ <;> decide

/-- The group-reading loop of `CreateSupplementaryGroups` on a non-empty
list of exactly `cap` successes terminates via the no-next-sibling break at
index `cap - 1`, collecting every gid. -/
theorem csgLoop_exact (cap : Nat) (gs : List Nat) :
    ∀ i, gs ≠ [] → i + gs.length = cap →
      csgLoop cap i (gs.map (fun x => some x)) = some (gs, cap - 1) := by
  induction gs with
  | nil => intro i h; cases h rfl
  | cons t rest ih =>
    intro i _ hlen
    cases rest with
    | nil =>
      simp only [List.length_cons, List.length_nil] at hlen
      have hi : i < cap := by omega
      have hi1 : i = cap - 1 := by omega
      simp [csgLoop, hi, hi1]
      omega
    | cons u rest2 =>
      have hi : i < cap := by
        simp only [List.length_cons] at hlen
        omega
      have hlt : ¬ (cap - 1 ≤ i) := by
        simp only [List.length_cons] at hlen
        omega
      have hrec := ih (i + 1) (by simp) (by
        simp only [List.length_cons] at hlen ⊢
        omega)
      simp only [List.map_cons] at hrec ⊢
      simp only [csgLoop] at hrec ⊢
      rw [if_pos hi, if_neg hlt, hrec]
      rfl

/-- The group-reading loop on a list of `cap + 1` successes hits the
"too many supplementary groups" check and fails. -/
theorem csgLoop_over (cap : Nat) (gs : List Nat) :
    ∀ i, 2 ≤ gs.length → i + gs.length = cap + 1 →
      csgLoop cap i (gs.map (fun x => some x)) = none := by
  induction gs with
  | nil => intro i h; simp at h
  | cons t rest ih =>
    intro i hlen2 hlen
    cases rest with
    | nil => simp at hlen2
    | cons u rest2 =>
      have hi : i < cap := by
        simp only [List.length_cons] at hlen
        omega
      cases rest2 with
      | nil =>
        have hge : cap - 1 ≤ i := by
          simp only [List.length_cons, List.length_nil] at hlen
          omega
        simp [csgLoop, hi, hge]
      | cons v rest3 =>
        have hlt : ¬ (cap - 1 ≤ i) := by
          simp only [List.length_cons] at hlen
          omega
        have hrec := ih (i + 1) (by simp) (by
          simp only [List.length_cons] at hlen ⊢
          omega)
        simp only [List.map_cons] at hrec ⊢
        simp only [csgLoop] at hrec ⊢
        rw [if_pos hi, if_neg hlt, hrec]
        rfl

/-- C6: with every group creation succeeding, a sandboxed construction with
exactly `cap = LIMIT_MAX_NUM_SUPPLEMENTARY_GROUPS` groups succeeds and
stores a supplementary-gid count equal to the number of groups, while one
group more than the cap fails construction. -/
theorem c6_group_cap_theorem (cap : Nat) (gids : List Nat) (junk : App)
    (path sp : String) (u g : Nat) (procsCfg : List (Option Proc))
    (pos : List ProcObj)
    (hcap : 1 ≤ cap) (hprocs : createProcObjs procsCfg = some pos) :
    (gids.length = cap →
      (app_Create cap junk
          { cfgPath := path, sandboxedCfg := some true,
            user := { userNameOk := true, userIds := some (u, g),
                      groups := gids.map (fun x => some x) },
            sandboxPathRes := some sp, procsCfg := procsCfg }).map
          App.numSupplementGids = some gids.length)
    ∧ (gids.length = cap + 1 →
      app_Create cap junk
          { cfgPath := path, sandboxedCfg := some true,
            user := { userNameOk := true, userIds := some (u, g),
                      groups := gids.map (fun x => some x) },
            sandboxPathRes := some sp, procsCfg := procsCfg } = none) := by
  constructor
  · intro hlen
    have hne : gids ≠ [] := by
      intro h
      rw [h] at hlen
      simp at hlen
      omega
    obtain ⟨g0, grest, rfl⟩ := List.exists_cons_of_ne_nil hne
    have hloop := csgLoop_exact cap (g0 :: grest) 0 (by simp) (by omega)
    simp only [List.map_cons] at hloop
    simp only [app_Create, CreateUserAndGroups, appCreateInit,
      CreateSupplementaryGroups, setSandboxPath, List.map_cons,
      Option.getD_some, Bool.not_true, if_pos, if_true, if_false]
    simp only [hloop, hprocs]
    simp [hlen]
    omega
  · intro hlen
    have hloop := csgLoop_over cap gids 0 (by omega) (by omega)
    have hne : gids ≠ [] := by
      intro h
      rw [h] at hlen
      simp at hlen
    obtain ⟨g0, grest, rfl⟩ := List.exists_cons_of_ne_nil hne
    simp only [List.map_cons] at hloop
    simp only [app_Create, CreateUserAndGroups, appCreateInit,
      CreateSupplementaryGroups, setSandboxPath, List.map_cons,
      Option.getD_some, Bool.not_true, if_pos, if_true, if_false]
    simp [hloop]

/-- Witness for C6 at a concrete input: with a cap of 8 (the minimum the
tests assume), eight groups succeed with a stored count of 8. -/
theorem c6_group_cap_witness :
    (app_Create 8 junkApp
        { cfgPath := "/apps/w", sandboxedCfg := some true,
          user := { userNameOk := true, userIds := some (2000, 2000),
                    groups := [1, 2, 3, 4, 5, 6, 7, 8].map (fun x => some x) },
          sandboxPathRes := some "/sb/w", procsCfg := [] }).map
        App.numSupplementGids = some ([1, 2, 3, 4, 5, 6, 7, 8] : List Nat).length :=
  (c6_group_cap_theorem 8 [1, 2, 3, 4, 5, 6, 7, 8] junkApp "/apps/w" "/sb/w"
      2000 2000 [] [] (by decide) (by decide)).1 (by decide)

/-- C7: the watchdog handler falls back to the app-level config key when
the process-level action is `NotFound` or `Error`, synthesizes `Restart`
when the app-level value is also missing, and for a resolved `Restart`
(including the synthesized default) installs `StartProc` as the stop
handler, marks the process Stopping, sends `SIGKILL`, and reports
`Handled`; a PID matching no process returns `LE_NOT_FOUND`. -/
theorem c7_watchdog_theorem (app : App) (pid : Int) (o : WdogOracle) :
    (FindProcObjectRef app.procs pid = none →
      (app_WatchdogTimeoutHandler app pid o).1 = .notFound)
    ∧ (∀ i po, FindProcObjectRef app.procs pid = some (i, po) →
        ((po.procRef.wdogAction ≠ .notFound ∧ po.procRef.wdogAction ≠ .error) →
          resolveWatchdogAction po.procRef.wdogAction o = po.procRef.wdogAction)
        ∧ ((po.procRef.wdogAction = .notFound ∨ po.procRef.wdogAction = .error) →
            o.appCfgRead = some "" →
            resolveWatchdogAction po.procRef.wdogAction o = .notFound)
        ∧ ((resolveWatchdogAction po.procRef.wdogAction o = .restart ∨
            resolveWatchdogAction po.procRef.wdogAction o = .notFound) →
          (app_WatchdogTimeoutHandler app pid o).1 = .ok ∧
          (app_WatchdogTimeoutHandler app pid o).2.1 = some .handled ∧
          (app_WatchdogTimeoutHandler app pid o).2.2.1.procs[i]? =
            some { procRef := { po.procRef with stopping := true },
                   stopHandler := some .startProc } ∧
          (app_WatchdogTimeoutHandler app pid o).2.2.2 =
            [Ev.killHard po.procRef.pid])) := by
  refine ⟨?_, ?_⟩
  · intro h
    simp [app_WatchdogTimeoutHandler, h]
  · intro i po hfind
    have hget := FindProcObjectRef_getElem hfind
    have hlen : i < app.procs.length := by
      by_contra hle
      rw [List.getElem?_eq_none (by omega)] at hget
      cases hget
    refine ⟨?_, ?_, ?_⟩
    · rintro ⟨h1, h2⟩
      simp [resolveWatchdogAction, h1, h2]
    · rintro (h | h) hcfg <;>
        simp [resolveWatchdogAction, h, hcfg, wdog_action_EnumFromString]
    · rintro (hres | hres) <;>
        simp [app_WatchdogTimeoutHandler, hfind, hres, StopProc,
          List.getElem?_set_eq hlen]

/-- Witness for C7 at a concrete input: the sample process's configured
`Restart` action installs `StartProc`, marks it Stopping, SIGKILLs it, and
is reported `Handled`. -/
theorem c7_watchdog_witness :
    (app_WatchdogTimeoutHandler sampleApp 5 { appCfgRead := some "" }).1 = .ok ∧
    (app_WatchdogTimeoutHandler sampleApp 5 { appCfgRead := some "" }).2.1 =
      some .handled ∧
    (app_WatchdogTimeoutHandler sampleApp 5
        { appCfgRead := some "" }).2.2.1.procs[0]? =
      some { procRef := { sampleProc with stopping := true },
             stopHandler := some .startProc } ∧
    (app_WatchdogTimeoutHandler sampleApp 5 { appCfgRead := some "" }).2.2.2 =
      [Ev.killHard sampleProc.pid] :=
  ((c7_watchdog_theorem sampleApp 5 { appCfgRead := some "" }).2 0 sampleProcObj
      (by decide)).2.2 (Or.inl (by decide))

/-- The permission string naming a set of access-mode bits, in the `r`,
`w`, `x` order used by the source's permission table. -/
def permStringOf (f : AccessFlags) : String :=
  (if f.r then "r" else "") ++ (if f.w then "w" else "") ++ (if f.x then "x" else "")

/-- The seven-permission table of `SetDefaultSmackRules`, spelled out. -/
theorem setDefaultSmackRules_eq (env : SmackEnv) (appName appLabel : String) :
    (SetDefaultSmackRules env appName appLabel).2 =
      [Ev.smackSetRule appLabel "x" (env.getAccessLabel appName ⟨false, false, true⟩),
       Ev.smackSetRule appLabel "w" (env.getAccessLabel appName ⟨false, true, false⟩),
       Ev.smackSetRule appLabel "wx" (env.getAccessLabel appName ⟨false, true, true⟩),
       Ev.smackSetRule appLabel "r" (env.getAccessLabel appName ⟨true, false, false⟩),
       Ev.smackSetRule appLabel "rx" (env.getAccessLabel appName ⟨true, false, true⟩),
       Ev.smackSetRule appLabel "rw" (env.getAccessLabel appName ⟨true, true, false⟩),
       Ev.smackSetRule appLabel "rwx" (env.getAccessLabel appName ⟨true, true, true⟩),
       Ev.smackSetRule "framework" "w" appLabel,
       Ev.smackSetRule appLabel "rw" "framework"] := by
  simp only [SetDefaultSmackRules, permissionStr, List.map_cons, List.map_nil,
    show modeOfPermStr "x" = ⟨false, false, true⟩ from by decide,
    show modeOfPermStr "w" = ⟨false, true, false⟩ from by decide,
    show modeOfPermStr "wx" = ⟨false, true, true⟩ from by decide,
    show modeOfPermStr "r" = ⟨true, false, false⟩ from by decide,
    show modeOfPermStr "rx" = ⟨true, false, true⟩ from by decide,
    show modeOfPermStr "rw" = ⟨true, true, false⟩ from by decide,
    show modeOfPermStr "rwx" = ⟨true, true, true⟩ from by decide]
  rfl

/-- C8: the SMACK installation performed by a successful `app_Start` sets
exactly the seven self-permission rules `label(A) --perm-->
access_label(A, perm)` for every non-empty subset `perm` of `{r, w, x}`,
the framework pair, and for every bindings child with a non-empty `app`
field both `rw` rules with the server's label; and the installation's
events appear in the trace of every successful `app_Start`. -/
theorem c8_smack_rules_theorem (env : SmackEnv) (appName : String)
    (bindings : List String) :
    (∀ e : Ev,
      e ∈ (SetSmackRules env appName bindings).2 ↔
        ((∃ f : AccessFlags, (f.r = true ∨ f.w = true ∨ f.x = true) ∧
            e = Ev.smackSetRule (env.getLabel appName) (permStringOf f)
                  (env.getAccessLabel appName f))
          ∨ e = Ev.smackSetRule "framework" "w" (env.getLabel appName)
          ∨ e = Ev.smackSetRule (env.getLabel appName) "rw" "framework"
          ∨ (∃ b, b ∈ bindings ∧ b ≠ "" ∧
              (e = Ev.smackSetRule (env.getLabel appName) "rw" (env.getLabel b) ∨
               e = Ev.smackSetRule (env.getLabel b) "rw" (env.getLabel appName)))))
    ∧ (∀ (app : App) (o : StartOracle),
        app.state = AppState.stopped → o.bindings = bindings →
        app.name = appName →
        (app_Start env app o).1 = .ok →
        ∃ pre post, (app_Start env app o).2.2 =
          pre ++ (SetSmackRules env appName bindings).2 ++ post) := by
  constructor
  · intro e
    rw [show (SetSmackRules env appName bindings).2 =
          (SetDefaultSmackRules env appName (env.getLabel appName)).2 ++
            (SetSmackRulesForBindings env (env.getLabel appName) bindings).2
        from rfl,
      setDefaultSmackRules_eq]
    constructor
    · intro hmem
      simp only [SetSmackRulesForBindings, List.mem_append, List.mem_cons,
        List.mem_flatMap, List.not_mem_nil, or_false] at hmem
      rcases hmem with (h | h | h | h | h | h | h | h | h) | ⟨b, hb, hmem⟩
      · exact Or.inl ⟨⟨false, false, true⟩, by simp,
          by rw [h, show permStringOf ⟨false, false, true⟩ = "x" from by decide]⟩
      · exact Or.inl ⟨⟨false, true, false⟩, by simp,
          by rw [h, show permStringOf ⟨false, true, false⟩ = "w" from by decide]⟩
      · exact Or.inl ⟨⟨false, true, true⟩, by simp,
          by rw [h, show permStringOf ⟨false, true, true⟩ = "wx" from by decide]⟩
      · exact Or.inl ⟨⟨true, false, false⟩, by simp,
          by rw [h, show permStringOf ⟨true, false, false⟩ = "r" from by decide]⟩
      · exact Or.inl ⟨⟨true, false, true⟩, by simp,
          by rw [h, show permStringOf ⟨true, false, true⟩ = "rx" from by decide]⟩
      · exact Or.inl ⟨⟨true, true, false⟩, by simp,
          by rw [h, show permStringOf ⟨true, true, false⟩ = "rw" from by decide]⟩
      · exact Or.inl ⟨⟨true, true, true⟩, by simp,
          by rw [h, show permStringOf ⟨true, true, true⟩ = "rwx" from by decide]⟩
      · exact Or.inr (Or.inl h)
      · exact Or.inr (Or.inr (Or.inl h))
      · by_cases hbe : b = ""
        · rw [hbe] at hmem; simp at hmem
        · rw [if_neg hbe] at hmem
          simp only [List.mem_cons, List.not_mem_nil, or_false] at hmem
          exact Or.inr (Or.inr (Or.inr ⟨b, hb, hbe, hmem⟩))
    · intro hshape
      rcases hshape with ⟨f, hne, he⟩ | h | h | ⟨b, hb, hbe, he⟩
      · obtain ⟨fr, fw, fx⟩ := f
        cases fr <;> cases fw <;> cases fx
        · simp at hne
        · rw [show permStringOf ⟨false, false, true⟩ = "x" from by decide] at he
          simp [he]
        · rw [show permStringOf ⟨false, true, false⟩ = "w" from by decide] at he
          simp [he]
        · rw [show permStringOf ⟨false, true, true⟩ = "wx" from by decide] at he
          simp [he]
        · rw [show permStringOf ⟨true, false, false⟩ = "r" from by decide] at he
          simp [he]
        · rw [show permStringOf ⟨true, false, true⟩ = "rx" from by decide] at he
          simp [he]
        · rw [show permStringOf ⟨true, true, false⟩ = "rw" from by decide] at he
          simp [he]
        · rw [show permStringOf ⟨true, true, true⟩ = "rwx" from by decide] at he
          simp [he]
      · simp [h]
      · simp [h]
      · simp only [SetSmackRulesForBindings, List.mem_append, List.mem_flatMap]
        right
        refine ⟨b, hb, ?_⟩
        rw [if_neg hbe]
        rcases he with he | he <;> simp [he]
  · intro app o hstop hbind hname hok
    by_cases hsb : app.sandboxed = true
    · by_cases hso : o.sandboxSetupOk = true
      · by_cases hrl : o.resLimOk = true
        · cases hloop : startProcsLoop o.procStart 0 app.procs with
          | mk res evs =>
            cases res <;>
              simp_all [app_Start, hstop, SetSmackRules, SetDefaultSmackRules,
                SetSmackRulesForBindings] <;>
              exact ⟨[Ev.sandboxSetup, Ev.resLimSet], evs, by simp⟩
        · cases hloop : startProcsLoop o.procStart 0 app.procs with
          | mk res evs =>
            simp_all [app_Start, hstop, SetSmackRules, SetDefaultSmackRules,
              SetSmackRulesForBindings]
      · simp_all [app_Start, hstop]
    · by_cases hrl : o.resLimOk = true
      · cases hloop : startProcsLoop o.procStart 0 app.procs with
        | mk res evs =>
          cases res <;>
            simp_all [app_Start, hstop, SetSmackRules, SetDefaultSmackRules,
              SetSmackRulesForBindings] <;>
            exact ⟨[Ev.resLimSet], evs, by simp⟩
      · cases hloop : startProcsLoop o.procStart 0 app.procs with
        | mk res evs =>
          simp_all [app_Start, hstop, SetSmackRules, SetDefaultSmackRules,
            SetSmackRulesForBindings]

/-- Witness for C8 at a concrete input: the binding to server `b` puts the
`label(A) --rw--> label(B)` rule in the installed set. -/
theorem c8_smack_rules_witness :
    Ev.smackSetRule (sampleEnv.getLabel "a") "rw" (sampleEnv.getLabel "b") ∈
      (SetSmackRules sampleEnv "a" ["b"]).2 :=
  ((c8_smack_rules_theorem sampleEnv "a" ["b"]).1 _).mpr
    (Or.inr (Or.inr (Or.inr ⟨"b", by simp, by simp, Or.inl rfl⟩)))

/-- C9: `stop()` is idempotent — on a Stopped application `app_Stop` is a
no-op that changes no field and issues no collaborator call (so
`stop(); stop()` equals a single `stop()` there), and calling `app_Stop`
while a soft-kill is pending never restarts the armed 300 ms kill timer
(its deadline is preserved on every path). -/
theorem c9_stop_idempotent_theorem (env : SmackEnv) (app : App)
    (o1 o2 : StopOracle) :
    (app.state = AppState.stopped → app_Stop env app o1 = (app, []))
    ∧ (app.state = AppState.stopped →
        app_Stop env (app_Stop env app o1).1 o2 = app_Stop env app o2)
    ∧ (∀ t, app.killTimer = some t → t.running = true →
        (app_Stop env app o1).1.killTimer = some t) := by
  refine ⟨?_, ?_, ?_⟩
  · intro h
    simp [app_Stop, h]
  · intro h
    have h1 : app_Stop env app o1 = (app, []) := by simp [app_Stop, h]
    rw [h1]
  · intro t ht hrun
    by_cases hstop : app.state = AppState.stopped
    · simp [app_Stop, hstop, ht]
    · have hkt : (KillAppProcs app .soft o1.kill).2.1.killTimer = app.killTimer := by
        unfold KillAppProcs
        rcases o1.kill.sendSigRes with _ | n
        · rfl
        · cases n <;> rfl
      unfold app_Stop
      rw [if_neg hstop]
      cases hk : KillAppProcs app .soft o1.kill with
      | mk res rest =>
        obtain ⟨app1, evs⟩ := rest
        rw [hk] at hkt
        simp only at hkt
        by_cases hres : res = LeResult.notFound
        · simp [hres, hkt, ht]
        · simp [hres, hkt, ht, leTimerStart, hrun]

/-- Witness for C9 at a concrete input: stopping an already-stopped app is
a no-op with an empty trace. -/
theorem c9_stop_idempotent_witness :
    app_Stop sampleEnv sampleStoppedApp sampleStopOracle =
      (sampleStoppedApp, []) :=
  (c9_stop_idempotent_theorem sampleEnv sampleStoppedApp sampleStopOracle
      sampleStopOracle).1 (by decide)

/-- C10: every `app_SigChildHandler` call ends with the freezer check; when
the cgroup is empty the kill timer (if any) is stopped, the cleanup calls
(SMACK revoke, sandbox removal for sandboxed apps, resource-limit clearing)
are issued, and the state becomes Stopped — even when the PID matches no
process, in which case the returned fault action stays `Ignore`. -/
theorem c10_sigchild_stop_theorem (env : SmackEnv) (app : App)
    (record : Option String) (pid status : Int) (o : SigOracle)
    (hempty : o.cgroupEmpty = true) :
    (app_SigChildHandler env app record pid status o).2.1.state = .stopped
    ∧ (FindProcObjectRef app.procs pid = none →
        (app_SigChildHandler env app record pid status o).1 = .ignore)
    ∧ (∀ t, app.killTimer = some t →
        (app_SigChildHandler env app record pid status o).2.1.killTimer =
          some { t with running := false } ∧
        Ev.timerStop ∈ (app_SigChildHandler env app record pid status o).2.2.2)
    ∧ Ev.smackRevoke (env.getLabel app.name) ∈
        (app_SigChildHandler env app record pid status o).2.2.2
    ∧ Ev.resLimCleanup ∈ (app_SigChildHandler env app record pid status o).2.2.2
    ∧ (app.sandboxed = true →
        Ev.sandboxRemove ∈
          (app_SigChildHandler env app record pid status o).2.2.2) := by
  have hrun : HasRunningProc o.cgroupEmpty = false := by
    rw [hempty]; rfl
  cases hfind : FindProcObjectRef app.procs pid with
  | none =>
    refine ⟨?_, ?_, ?_, ?_, ?_, ?_⟩
    · simp [app_SigChildHandler, hfind, hrun]
    · intro _
      simp [app_SigChildHandler, hfind, hrun]
    · intro t ht
      constructor
      · simp [app_SigChildHandler, hfind, hrun, ht]
      · simp [app_SigChildHandler, hfind, hrun, ht, CleanupApp]
    · simp [app_SigChildHandler, hfind, hrun, CleanupApp]
    · simp [app_SigChildHandler, hfind, hrun, CleanupApp]
    · intro hsb
      simp [app_SigChildHandler, hfind, hrun, CleanupApp, hsb]
  | some ip =>
    obtain ⟨i, po⟩ := ip
    cases hd : sigChildDispatch app.name record po o with
    | mk fa rest =>
      obtain ⟨po1, record1, evs⟩ := rest
      refine ⟨?_, ?_, ?_, ?_, ?_, ?_⟩
      · simp [app_SigChildHandler, hfind, hd, hrun]
      · intro h
        exact absurd h (by simp)
      · intro t ht
        constructor
        · simp [app_SigChildHandler, hfind, hd, hrun, ht]
        · simp [app_SigChildHandler, hfind, hd, hrun, ht, CleanupApp]
      · simp [app_SigChildHandler, hfind, hd, hrun, CleanupApp]
      · simp [app_SigChildHandler, hfind, hd, hrun, CleanupApp]
      · intro hsb
        simp [app_SigChildHandler, hfind, hd, hrun, CleanupApp, hsb]

/-- Witness for C10 at a concrete input: a stray PID event on an app whose
cgroup is empty still completes the Stopped transition and reports
`Ignore`. -/
theorem c10_sigchild_stop_witness :
    (app_SigChildHandler sampleEnv sampleApp none 99 0
        { procFaultAction := .noFault, newFaultTime := 0, startProcResult := .ok,
          rebootWriteOk := true, cgroupEmpty := true }).2.1.state = .stopped ∧
    (app_SigChildHandler sampleEnv sampleApp none 99 0
        { procFaultAction := .noFault, newFaultTime := 0, startProcResult := .ok,
          rebootWriteOk := true, cgroupEmpty := true }).1 = .ignore :=
  ⟨(c10_sigchild_stop_theorem sampleEnv sampleApp none 99 0
      { procFaultAction := .noFault, newFaultTime := 0, startProcResult := .ok,
        rebootWriteOk := true, cgroupEmpty := true } (by decide)).1,
   (c10_sigchild_stop_theorem sampleEnv sampleApp none 99 0
      { procFaultAction := .noFault, newFaultTime := 0, startProcResult := .ok,
        rebootWriteOk := true, cgroupEmpty := true } (by decide)).2.1 (by decide)⟩

/-- Witness for C1 at a concrete input: the fault limit is reached for a
`Restart` fault 5 s after the previous one, and the handler reports
`StopApp`. -/
theorem c1_fault_limit_witness :
    (app_SigChildHandler sampleEnv sampleApp none 5 0
      { procFaultAction := .restart, newFaultTime := 105,
        startProcResult := .ok, rebootWriteOk := true,
        cgroupEmpty := false }).1 = .stopApp :=
  (c1_fault_limit_theorem none "a" "p" .restart 105 100 sampleEnv sampleApp 5 0
      { procFaultAction := .restart, newFaultTime := 105,
        startProcResult := .ok, rebootWriteOk := true, cgroupEmpty := false }
      0 sampleProcObj (by decide)).2.2.2 (by decide)

